import Mathlib

/-!
Verification development for the STL-to-SVG wire centerline extractor
(`src/utils/stl_processor.py`).  The numeric code is embedded over `ℚ`.
Euclidean norms appear in the source only inside order comparisons against
configuration scalars, so they are represented by their squares together
with comparison helpers that are exact characterisations of the real
comparisons (`sqrt s < t` for `s ≥ 0` holds iff `0 < t ∧ s < t²`).
NumPy float division never raises: a zero denominator yields a non-finite
value (`inf`/`nan`), every component of the resulting closest points is
then non-finite, and the final `distance < max_distance` comparison is
false for both `inf` and `nan`.  `closest_point_between_lines` therefore
returns `none` exactly when a denominator is zero, and the candidate
acceptance test treats `none` as rejected, which reproduces the observable
behaviour of the float code on that path.
-/

namespace BendPrep

/-- Points and vectors of the processor, `ℚ` components `(x, y, z)`. -/
abbrev Vec3 := ℚ × ℚ × ℚ

/-- Componentwise vector addition (NumPy array `+`). -/
def vadd (u v : Vec3) : Vec3 := (u.1 + v.1, u.2.1 + v.2.1, u.2.2 + v.2.2)

/-- Componentwise vector subtraction (NumPy array `-`). -/
def vsub (u v : Vec3) : Vec3 := (u.1 - v.1, u.2.1 - v.2.1, u.2.2 - v.2.2)

/-- Scalar times vector (NumPy scalar `*` array). -/
def vsmul (a : ℚ) (u : Vec3) : Vec3 := (a * u.1, a * u.2.1, a * u.2.2)

/-- Dot product, as produced by `np.dot` on length-3 arrays. -/
def dot3 (u v : Vec3) : ℚ :=
  u.1 * v.1 + u.2.1 * v.2.1 + u.2.2 * v.2.2

/-- Cross product, as produced by `np.cross` on length-3 arrays. -/
def cross (u v : Vec3) : Vec3 :=
  (u.2.1 * v.2.2 - u.2.2 * v.2.1,
   u.2.2 * v.1 - u.1 * v.2.2,
   u.1 * v.2.1 - u.2.1 * v.1)

/-- Squared Euclidean norm; `np.linalg.norm(x)` squared. -/
def normSq (u : Vec3) : ℚ := dot3 u u

/-- Exact rendering of the comparison `Real.sqrt s < t` for `s ≥ 0`:
false when `t ≤ 0`, otherwise `s < t²`. -/
def sqrtLt (s t : ℚ) : Bool :=
  if t ≤ 0 then false else decide (s < t * t)

/-- Exact rendering of the comparison `Real.sqrt s > t` for `s ≥ 0`:
true when `t < 0`, otherwise `s > t²`. -/
def sqrtGt (s t : ℚ) : Bool :=
  if t < 0 then true else decide (t * t < s)

/-- The second auxiliary normal `n1 = v1 × (v1 × v2)` of the source. -/
def n1vec (v1 v2 : Vec3) : Vec3 := cross v1 (cross v1 v2)

/-- The first auxiliary normal `n2 = v2 × (v1 × v2)` of the source. -/
def n2vec (v1 v2 : Vec3) : Vec3 := cross v2 (cross v1 v2)

/-- Embedding of `closest_point_between_lines` (src/utils/stl_processor.py,
lines 8-16).  Returns the midpoint of the two per-line closest points and
the squared separation `|c1 - c2|²`.  A zero denominator (`v1·n2` or
`v2·n1`) makes every component of `c1`/`c2` non-finite in the float code,
so the pair's distance is `inf` or `nan`; this is rendered as `none`. -/
def closest_point_between_lines (p1 v1 p2 v2 : Vec3) : Option (Vec3 × ℚ) :=
  let n := cross v1 v2
  let n1 := cross v1 n
  let n2 := cross v2 n
  if dot3 v1 n2 = 0 ∨ dot3 v2 n1 = 0 then none
  else
    let c1 := vadd p1 (vsmul (dot3 (vsub p2 p1) n2 / dot3 v1 n2) v1)
    let c2 := vadd p2 (vsmul (dot3 (vsub p1 p2) n1 / dot3 v2 n1) v2)
    some (vsmul ((1 : ℚ) / 2) (vadd c1 c2), normSq (vsub c1 c2))

/-- Body of the inner loop of `process_chunk` (lines 18-29) for one facet
pair: the coarse prune `|p1-p2| > max_distance*10`, the closest-point
computation, and the acceptance test `distance < max_distance`.  A
non-finite distance (`none`) fails the acceptance test, as `nan`/`inf`
comparisons are false in NumPy. -/
def pairCandidate (p1 v1 p2 v2 : Vec3) (maxd : ℚ) : List Vec3 :=
  if sqrtGt (normSq (vsub p1 p2)) (maxd * 10) then []
  else
    match closest_point_between_lines p1 v1 p2 v2 with
    | none => []
    | some (pt, dsq) => if sqrtLt dsq maxd then [pt] else []

/-- Embedding of `process_chunk` (lines 18-30): for each outer index `i`
of the chunk, scan `j` over `i+1 .. len-1` and collect accepted
candidates in order. -/
def process_chunk (chunk : List ℕ) (cents norms : List Vec3) (maxd : ℚ) :
    List Vec3 :=
  chunk.flatMap fun i =>
    (List.range' (i + 1) (cents.length - (i + 1))).flatMap fun j =>
      pairCandidate (cents.getD i (0, 0, 0)) (norms.getD i (0, 0, 0))
        (cents.getD j (0, 0, 0)) (norms.getD j (0, 0, 0)) maxd

/-- Concatenation of per-chunk results in partition-index order
(the `np.vstack(results)` of `extract_centerline`, line 48). -/
def allCandidates (chunks : List (List ℕ)) (cents norms : List Vec3)
    (maxd : ℚ) : List Vec3 :=
  chunks.flatMap fun c => process_chunk c cents norms maxd

/-- Half-to-even integer rounding, the tie rule of `np.round`. -/
def roundHalfEven (x : ℚ) : ℤ :=
  if Int.fract x = 1 / 2 then (if Even ⌊x⌋ then ⌊x⌋ else ⌊x⌋ + 1)
  else round x

/-- Rounding of one coordinate to 5 decimals, `np.round(x, decimals=5)`. -/
def round5 (x : ℚ) : ℚ := (roundHalfEven (x * 100000) : ℚ) / 100000

/-- Componentwise rounding of one point, `arr.round(decimals=5)`. -/
def roundPt (p : Vec3) : Vec3 := (round5 p.1, round5 p.2.1, round5 p.2.2)

/-- Lexicographic encoding of a point, giving the row order used by
`np.unique(..., axis=0)` (first coordinate is the primary key). -/
def enc (u : Vec3) : ℚ ×ₗ (ℚ ×ₗ ℚ) := toLex (u.1, toLex (u.2.1, u.2.2))

/-- Lexicographic row order of `np.unique(..., axis=0)`. -/
def vecLe (u v : Vec3) : Prop := enc u ≤ enc v

instance : DecidableRel vecLe := fun u v =>
  inferInstanceAs (Decidable (enc u ≤ enc v))

instance : IsTotal Vec3 vecLe := ⟨fun u _ => le_total (enc u) _⟩

instance : IsTrans Vec3 vecLe := ⟨fun _ _ _ h1 h2 => le_trans h1 h2⟩

instance : IsAntisymm Vec3 vecLe :=
  ⟨fun a b h1 h2 => by
    have h : enc a = enc b := le_antisymm h1 h2
    have h2p : (a.1, toLex (a.2.1, a.2.2)) = (b.1, toLex (b.2.1, b.2.2)) :=
      congrArg ofLex h
    have h3 : a.1 = b.1 := congrArg Prod.fst h2p
    have h4 : (a.2.1, a.2.2) = (b.2.1, b.2.2) :=
      congrArg ofLex (congrArg Prod.snd h2p)
    exact Prod.ext h3
      (Prod.ext (congrArg Prod.fst h4) (congrArg Prod.snd h4))⟩

/-- Removal of adjacent duplicate rows from a (sorted) list, the
duplicate-dropping half of `np.unique(..., axis=0)`. -/
def uniqAdj : List Vec3 → List Vec3
  | [] => []
  | [a] => [a]
  | a :: b :: t => if a = b then uniqAdj (b :: t) else a :: uniqAdj (b :: t)

/-- Embedding of line 50 of the source,
`np.unique(center_points.round(decimals=5), axis=0)`: round every
coordinate to 5 decimals, sort rows lexicographically, drop duplicate
rows. -/
def dedup (l : List Vec3) : List Vec3 :=
  uniqAdj (List.insertionSort vecLe (l.map roundPt))

/-- Mean of a point list, `np.mean(points, axis=0)`. -/
def meanPt (pts : List Vec3) : Vec3 :=
  vsmul (1 / (pts.length : ℚ)) (pts.foldl vadd (0, 0, 0))

/-- Principal-axis ordering (lines 52-55): project each point minus the
mean onto the dominant axis and sort ascending by projection value.
NumPy's `argsort` uses an unstable sort, so the order among points with
exactly equal projections is a deterministic but unspecified choice; the
embedding fixes one deterministic choice (a stable sort).  Both are
functions of the input list, which is what the permutation-invariance
claim concerns. -/
def orderPoints (axis : Vec3) (pts : List Vec3) : List Vec3 :=
  List.insertionSort
    (fun u v =>
      dot3 (vsub u (meanPt pts)) axis ≤ dot3 (vsub v (meanPt pts)) axis)
    pts

/-- Squared Euclidean distances between consecutive ordered points
(lines 57-58).  Distances enter the source only through `np.median` and
equality-style claims, so they are carried as squares. -/
def consecSqDists : List Vec3 → List ℚ
  | a :: b :: t => normSq (vsub b a) :: consecSqDists (b :: t)
  | _ => []

/-- Median of a list of scalars, `np.median`: sort ascending, take the
middle element, or the mean of the two middle elements for even length. -/
def medianQ (l : List ℚ) : ℚ :=
  let s := List.insertionSort (· ≤ ·) l
  if s.length % 2 = 1 then s.getD (s.length / 2) 0
  else (s.getD (s.length / 2 - 1) 0 + s.getD (s.length / 2) 0) / 2

/-- Lines 48-59 of `extract_centerline` after the parallel search:
deduplicate the candidate points, compute the principal axis of the
deduplicated cloud (`trimesh.transformations.principal_axes`, an
eigen-decomposition taken here as a function parameter `axisFn` of the
deduplicated list), order by projection, and take the median consecutive
(squared) distance as the wire diameter. -/
def centerlineFromCandidates (axisFn : List Vec3 → Vec3)
    (cands : List Vec3) : List Vec3 × ℚ :=
  let d := dedup cands
  let ordered := orderPoints (axisFn d) d
  (ordered, medianQ (consecSqDists ordered))

/-- Failure outcomes of the pipeline.  `valueError` and `typeError` are
the Python exception classes the embedded code paths actually raise:
`ValueError` from `np.random.choice` on a negative sample size and from
`range()` with a zero step, `TypeError` from the spline-fit library check
`m > k must hold` (`scipy.interpolate.splprep` with `k = 3` demands at
least 4 points), and `valueError` also stands for spline-fit failures on
degenerate data.  `configurationError` and `insufficientDataError` —
Modelled from the spec: the spec's error taxonomy (its section 7) names
`ConfigurationError` and `InsufficientDataError`, but no code under
`src/` defines or raises them; the constructors exist only so the spec's
typed-failure sentences can be stated and compared with the embedded
behaviour. -/
inductive ErrKind where
  | valueError
  | typeError
  | configurationError
  | insufficientDataError
deriving DecidableEq

/-- Evenly spaced sample parameters, `np.linspace(a, b, n)` (endpoints
included for `n ≥ 2`). -/
def linspace (a b : ℚ) (n : ℕ) : List ℚ :=
  if n = 1 then [a]
  else (List.range n).map fun i : ℕ => a + (b - a) * (i : ℚ) / ((n : ℚ) - 1)

/-- Embedding of `fit_bezier_spline` (lines 63-68).  The smoothing
tolerance is `(max_error * wire_diameter / 100)²`.  `splprep` with
`k = 3` raises `TypeError` when the point count is at most 3 (library
precondition `m > k`); otherwise the fitted spline `tck` is abstracted as
the oracle's returned evaluator (`splev`), with `none` standing for the
library's failure on degenerate data.  On success the curve is resampled
at `2 × len(points)` evenly spaced parameters over `[0, 1]` and the
reported curve count is `(num_points - 1) // 3`. -/
def fit_bezier_spline (oracle : List Vec3 → ℚ → Option (ℚ → Vec3))
    (points : List Vec3) (max_error wire_diameter : ℚ) :
    Except ErrKind (List Vec3 × ℕ) :=
  if points.length ≤ 3 then .error .typeError
  else
    match oracle points ((max_error * wire_diameter / 100) ^ 2) with
    | none => .error .valueError
    | some f =>
      let num_points := points.length * 2
      .ok ((linspace 0 1 num_points).map f, (num_points - 1) / 3)

/-- Minimum of a list of scalars (`np.min` over one coordinate axis);
defined as 0 on the empty list, which the source never reaches. -/
def listMinQ : List ℚ → ℚ
  | [] => 0
  | a :: t => t.foldl min a

/-- Maximum of a list of scalars (`np.max` over one coordinate axis). -/
def listMaxQ : List ℚ → ℚ
  | [] => 0
  | a :: t => t.foldl max a

/-- Scaled bounding-box width `(max_x - min_x) * scale` of `create_svg`
(lines 70-74). -/
def svgWidth (cl : List Vec3) (scale : ℚ) : ℚ :=
  (listMaxQ (cl.map fun p => p.1) - listMinQ (cl.map fun p => p.1)) * scale

/-- Scaled bounding-box height `(max_y - min_y) * scale`. -/
def svgHeight (cl : List Vec3) (scale : ℚ) : ℚ :=
  (listMaxQ (cl.map fun p => p.2.1) - listMinQ (cl.map fun p => p.2.1)) *
    scale

/-- Padding `max(width, height) * 0.1` of `create_svg` (line 75). -/
def svgPadding (cl : List Vec3) (scale : ℚ) : ℚ :=
  max (svgWidth cl scale) (svgHeight cl scale) * (1 / 10)

/-- The scaled 2D points of `create_svg` (line 79): drop the third
coordinate, shift by the per-axis minimum, scale, and add the padding. -/
def scaledPoints (cl : List Vec3) (scale : ℚ) : List (ℚ × ℚ) :=
  cl.map fun p =>
    (scale * (p.1 - listMinQ (cl.map fun q => q.1)) + svgPadding cl scale,
     scale * (p.2.1 - listMinQ (cl.map fun q => q.2.1)) + svgPadding cl scale)

/-- Structural rendering of the SVG document `create_svg` writes: the
declared document size, the stroke width `0.5 * scale`, one absolute
move-to, and the list of cubic curve-to commands (each a triple of 2D
points: control1, control2, endpoint). -/
structure SvgPath where
  docSize : ℚ × ℚ
  strokeWidth : ℚ
  move : ℚ × ℚ
  curves : List ((ℚ × ℚ) × (ℚ × ℚ) × (ℚ × ℚ))

/-- Runs of exactly 3 consecutive elements; trailing 1-2 leftovers are
dropped.  This is the loop `for i in range(1, len, 3): if i+2 < len`
of `create_svg` applied after removing the move-to point. -/
def triples {α : Type} : List α → List (α × α × α)
  | a :: b :: c :: t => (a, b, c) :: triples t
  | _ => []

/-- Embedding of `create_svg` (lines 70-89): move to the first scaled
point, then one cubic curve per run of 3 following points. -/
def create_svg (cl : List Vec3) (scale : ℚ) : SvgPath :=
  { docSize := (svgWidth cl scale + 2 * svgPadding cl scale,
      svgHeight cl scale + 2 * svgPadding cl scale)
    strokeWidth := (1 / 2) * scale
    move := (scaledPoints cl scale).headD (0, 0)
    curves := triples ((scaledPoints cl scale).drop 1) }

/-- All 2D coordinates the emitted path mentions: the move-to point and
the three points of every curve-to command. -/
def pathPoints (p : SvgPath) : List (ℚ × ℚ) :=
  p.move :: p.curves.flatMap fun tr => [tr.1, tr.2.1, tr.2.2]

/-- The sampling step of `extract_centerline` (lines 35-38):
`np.random.choice(len, sample_size, replace=False)` followed by fancy
indexing of both arrays by the same index list (preserving pairing).
The random draw is the parameter `pick`; `np.random.choice` raises
`ValueError` when the requested size is negative. -/
def sampleFacets (pick : ℕ → ℕ → List ℕ) (cents norms : List Vec3)
    (sample_size : ℤ) : Except ErrKind (List Vec3 × List Vec3) :=
  if (cents.length : ℤ) > sample_size then
    if sample_size < 0 then .error .valueError
    else
      let idx := pick cents.length sample_size.toNat
      .ok (idx.map fun i => cents.getD i (0, 0, 0),
        idx.map fun i => norms.getD i (0, 0, 0))
  else .ok (cents, norms)

/-- The chunk partition of lines 41-42: contiguous ranges
`range(i, min(i + chunk_size, n))` for `i in range(0, n, chunk_size)`. -/
def mkChunks (n cs : ℕ) : List (List ℕ) :=
  (List.range ((n + cs - 1) / cs)).map fun t =>
    List.range' (t * cs) (min (t * cs + cs) n - t * cs)

/-- Embedding of `extract_centerline` (lines 32-61).  `chunk_size` is the
integer division `len // cpu_count()`; when it is zero, Python's
`range(0, len, 0)` in the chunk comprehension raises `ValueError` before
any further work, embedded as `.error .valueError`.  Note the code never
validates `sample_size` itself. -/
def extract_centerline (pick : ℕ → ℕ → List ℕ) (numProcs : ℕ)
    (axisFn : List Vec3 → Vec3) (cents norms : List Vec3) (maxd : ℚ)
    (sample_size : ℤ) : Except ErrKind (List Vec3 × ℚ) :=
  (sampleFacets pick cents norms sample_size).bind fun pr =>
    if pr.1.length / numProcs = 0 then .error .valueError
    else
      .ok (centerlineFromCandidates axisFn
        (allCandidates (mkChunks pr.1.length (pr.1.length / numProcs))
          pr.1 pr.2 maxd))

/-- Constant spline oracle used by concrete witnesses. -/
def oracleConst : List Vec3 → ℚ → Option (ℚ → Vec3) :=
  fun _ _ => some fun _ => (0, 0, 0)

/-- Concrete four-point ordered input used by witnesses. -/
def ptsFour : List Vec3 := [(0, 0, 0), (1, 0, 0), (2, 0, 0), (3, 0, 0)]

/-- The fit result of `oracleConst` on `ptsFour`. -/
def fitResultFour : List Vec3 × ℕ :=
  ((linspace 0 1 8).map fun _ => (0, 0, 0), 2)

/-- Concrete three-point ordered input (too short for a cubic fit). -/
def ptsThree : List Vec3 := [(0, 0, 0), (1, 0, 0), (2, 0, 0)]

/-- Deterministic stand-in for the random index draw in witnesses. -/
def pickRange : ℕ → ℕ → List ℕ := fun _ m => List.range m

/-- Constant principal-axis stand-in for witnesses. -/
def axisX : List Vec3 → Vec3 := fun _ => (1, 0, 0)

theorem cross_zero_right (u : Vec3) : cross u (0, 0, 0) = (0, 0, 0) := by
  simp [cross]

theorem denom_zero_of_parallel {v1 v2 : Vec3} (h : cross v1 v2 = (0, 0, 0)) :
    dot3 v1 (n2vec v1 v2) = 0 := by
  rw [n2vec, h, cross_zero_right]
  simp [dot3]

theorem pairCandidate_length_le (p1 v1 p2 v2 : Vec3) (maxd : ℚ) :
    (pairCandidate p1 v1 p2 v2 maxd).length ≤ 1 := by
  unfold pairCandidate
  split
  · simp
  · split
    · simp
    · split <;> simp

theorem pairCandidate_maxd_zero (p1 v1 p2 v2 : Vec3) :
    pairCandidate p1 v1 p2 v2 0 = [] := by
  unfold pairCandidate
  split
  · rfl
  · split
    · rfl
    · simp [sqrtLt]

theorem process_chunk_length_le (chunk : List ℕ) (cents norms : List Vec3)
    (maxd : ℚ) :
    (process_chunk chunk cents norms maxd).length ≤
      (chunk.map fun i => cents.length - (i + 1)).sum := by
  unfold process_chunk
  rw [List.length_flatMap]
  apply List.sum_le_sum
  intro i _
  simp only [Function.comp_apply]
  rw [List.length_flatMap]
  calc ((List.range' (i + 1) (cents.length - (i + 1))).map fun j =>
          (pairCandidate (cents.getD i (0, 0, 0)) (norms.getD i (0, 0, 0))
            (cents.getD j (0, 0, 0)) (norms.getD j (0, 0, 0)) maxd).length).sum
      ≤ ((List.range' (i + 1) (cents.length - (i + 1))).map fun _ => 1).sum := by
        apply List.sum_le_sum
        intro j _
        exact pairCandidate_length_le _ _ _ _ _
    _ = cents.length - (i + 1) := by
        simp

theorem allCandidates_length_le (chunks : List (List ℕ))
    (cents norms : List Vec3) (maxd : ℚ) (h : chunks.flatten.Nodup) :
    (allCandidates chunks cents norms maxd).length ≤
      cents.length * (cents.length - 1) / 2 := by
  set n := cents.length with hn
  have step1 : (allCandidates chunks cents norms maxd).length ≤
      (chunks.flatten.map fun i => n - (i + 1)).sum := by
    unfold allCandidates
    rw [List.length_flatMap]
    calc (chunks.map
            (List.length ∘ fun c => process_chunk c cents norms maxd)).sum
        ≤ (chunks.map fun c => (c.map fun i => n - (i + 1)).sum).sum := by
          apply List.sum_le_sum
          intro c _
          exact process_chunk_length_le c cents norms maxd
      _ = (chunks.flatten.map fun i => n - (i + 1)).sum := by
          rw [List.map_flatten, List.sum_flatten, List.map_map]
          simp only [Function.comp_def]
  have step2 : (chunks.flatten.map fun i => n - (i + 1)).sum =
      ∑ i ∈ chunks.flatten.toFinset, (n - (i + 1)) := by
    rw [List.sum_toFinset _ h]
  have step3 : ∑ i ∈ chunks.flatten.toFinset, (n - (i + 1)) ≤
      ∑ i ∈ Finset.range n, (n - (i + 1)) := by
    have hfe : ∑ i ∈ chunks.flatten.toFinset.filter (fun i => i < n),
        (n - (i + 1)) = ∑ i ∈ chunks.flatten.toFinset, (n - (i + 1)) := by
      apply Finset.sum_filter_of_ne
      intro x _ hx
      simp only at hx
      omega
    rw [← hfe]
    apply Finset.sum_le_sum_of_subset
    intro x hx
    rw [Finset.mem_filter] at hx
    exact Finset.mem_range.mpr hx.2
  have step4 : ∑ i ∈ Finset.range n, (n - (i + 1)) = n * (n - 1) / 2 := by
    have hc : ∀ i ∈ Finset.range n, n - (i + 1) = n - 1 - i := by
      intro i _
      omega
    rw [Finset.sum_congr rfl hc, Finset.sum_range_reflect (fun i => i) n,
      Finset.sum_range_id]
  omega

theorem allCandidates_maxd_zero (chunks : List (List ℕ))
    (cents norms : List Vec3) :
    allCandidates chunks cents norms 0 = [] := by
  unfold allCandidates process_chunk
  simp [pairCandidate_maxd_zero]

/-- C1, amended.  A facet pair whose direction vectors are exactly parallel
(`v1 × v2 = 0`), or whose denominator `v1·n2` or `v2·n1` is exactly zero,
is evaluated without any division error (the embedding of the pair body is
a total function, mirroring NumPy's non-raising float division) and
contributes no candidate point.  The original claim's epsilon
neighbourhood does not exist in the code: only exact zero denominators
are inert. -/
theorem C1_parallel_pair_no_candidate
    (p1 v1 p2 v2 : Vec3) (maxd : ℚ)
    (h : cross v1 v2 = (0, 0, 0) ∨ dot3 v1 (n2vec v1 v2) = 0 ∨
      dot3 v2 (n1vec v1 v2) = 0) :
    pairCandidate p1 v1 p2 v2 maxd = [] := by
  have hd : dot3 v1 (cross v2 (cross v1 v2)) = 0 ∨
      dot3 v2 (cross v1 (cross v1 v2)) = 0 := by
    rcases h with h | h | h
    · exact Or.inl (denom_zero_of_parallel h)
    · exact Or.inl h
    · exact Or.inr h
  unfold pairCandidate
  split
  · rfl
  · simp only [closest_point_between_lines]
    rw [if_pos hd]

/-- Witness for `C1_parallel_pair_no_candidate`: two facets with parallel
normals, within prune range, produce no candidate. -/
theorem C1_witness :
    pairCandidate (0, 0, 0) (1, 0, 0) (0, 1, 0) (2, 0, 0) 5 = [] :=
  C1_parallel_pair_no_candidate (0, 0, 0) (1, 0, 0) (0, 1, 0) (2, 0, 0) 5
    (Or.inl (by norm_num [cross]))

/-- Counterexample to C1 as stated: a near-parallel pair whose denominator
`v1·n2 = 10⁻⁶` is nonzero but within any epsilon of zero down to `10⁻⁶`
(here `|v1·n2| < 10⁻³`) is not skipped — the search evaluates it and the
pair contributes the candidate point `(0,0,0)`. -/
theorem C1_counterexample :
    dot3 (1, 0, 0) (n2vec (1, 0, 0) (1, 1 / 1000, 0)) = 1 / 1000000 ∧
    (1 : ℚ) / 1000000 ≠ 0 ∧
    |dot3 (1, 0, 0) (n2vec (1, 0, 0) (1, 1 / 1000, 0))| < 1 / 1000 ∧
    process_chunk [0] [(0, 0, 0), (0, 0, 0)] [(1, 0, 0), (1, 1 / 1000, 0)] 1
      = [(0, 0, 0)] := by
  refine ⟨by norm_num [dot3, n2vec, cross], by norm_num, ?_, ?_⟩
  · rw [show dot3 (1, 0, 0) (n2vec (1, 0, 0) (1, 1 / 1000, 0)) = 1 / 1000000
      by norm_num [dot3, n2vec, cross], abs_of_pos (by norm_num)]
    norm_num
  · norm_num [process_chunk, pairCandidate, closest_point_between_lines,
      sqrtGt, sqrtLt, cross, dot3, normSq, vadd, vsub, vsmul, List.range']

/-- C3.  For a run of the pairwise search whose chunk partition repeats no
outer index (as the contiguous partition built by `extract_centerline`
does), the concatenated candidate list has at most `n·(n-1)/2 = C(n,2)`
points for `n` sampled facets, and is empty when `max_distance = 0`
(the coarse prune and the strict acceptance `distance < 0` reject every
pair). -/
theorem C3_candidate_count_bound (chunks : List (List ℕ))
    (cents norms : List Vec3) (maxd : ℚ) (h : chunks.flatten.Nodup) :
    (allCandidates chunks cents norms maxd).length ≤
      cents.length * (cents.length - 1) / 2 ∧
    (maxd = 0 → allCandidates chunks cents norms maxd = []) := by
  refine ⟨allCandidates_length_le chunks cents norms maxd h, ?_⟩
  rintro rfl
  exact allCandidates_maxd_zero chunks cents norms

/-- Witness for `C3_candidate_count_bound` on a concrete two-facet run
with `max_distance = 0`. -/
theorem C3_witness :
    (allCandidates [[0], [1]] [(0, 0, 0), (1, 0, 0)] [(1, 0, 0), (0, 1, 0)]
      0).length ≤ 2 * (2 - 1) / 2 ∧
    ((0 : ℚ) = 0 → allCandidates [[0], [1]] [(0, 0, 0), (1, 0, 0)]
      [(1, 0, 0), (0, 1, 0)] 0 = []) :=
  C3_candidate_count_bound [[0], [1]] [(0, 0, 0), (1, 0, 0)]
    [(1, 0, 0), (0, 1, 0)] 0 (by decide)

theorem roundHalfEven_intCast (m : ℤ) : roundHalfEven (m : ℚ) = m := by
  unfold roundHalfEven
  rw [Int.fract_intCast, if_neg (by norm_num), round_intCast]

theorem round5_idem (x : ℚ) : round5 (round5 x) = round5 x := by
  unfold round5
  rw [div_mul_cancel₀ _ (by norm_num : (100000 : ℚ) ≠ 0), roundHalfEven_intCast]

theorem roundPt_idem (p : Vec3) : roundPt (roundPt p) = roundPt p := by
  simp [roundPt, round5_idem]

theorem uniqAdj_subset : ∀ l : List Vec3, ∀ x ∈ uniqAdj l, x ∈ l
  | [] => by simp [uniqAdj]
  | [a] => by simp [uniqAdj]
  | a :: b :: t => by
    intro x hx
    rw [uniqAdj] at hx
    split at hx
    · exact List.mem_cons_of_mem a (uniqAdj_subset (b :: t) x hx)
    · rcases List.mem_cons.mp hx with rfl | hx2
      · exact List.mem_cons_self x (b :: t)
      · exact List.mem_cons_of_mem a (uniqAdj_subset (b :: t) x hx2)

theorem uniqAdj_cons_head : ∀ (b : Vec3) (t : List Vec3),
    ∃ t2, uniqAdj (b :: t) = b :: t2
  | _, [] => ⟨[], rfl⟩
  | b, c :: t => by
    rw [uniqAdj]
    split
    · rename_i hbc
      obtain ⟨t2, ht2⟩ := uniqAdj_cons_head c t
      exact ⟨t2, by rw [ht2, hbc]⟩
    · exact ⟨uniqAdj (c :: t), rfl⟩

theorem uniqAdj_chain : ∀ l : List Vec3, (uniqAdj l).Chain' (· ≠ ·)
  | [] => by simp [uniqAdj]
  | [a] => by simp [uniqAdj]
  | a :: b :: t => by
    rw [uniqAdj]
    split
    · exact uniqAdj_chain (b :: t)
    · rename_i hab
      obtain ⟨t2, ht2⟩ := uniqAdj_cons_head b t
      rw [ht2]
      exact List.Chain'.cons hab (ht2 ▸ uniqAdj_chain (b :: t))

theorem uniqAdj_of_chain : ∀ l : List Vec3,
    l.Chain' (· ≠ ·) → uniqAdj l = l
  | [] => fun _ => rfl
  | [_] => fun _ => rfl
  | a :: b :: t => by
    intro h
    rw [uniqAdj]
    rw [List.chain'_cons] at h
    rw [if_neg h.1, uniqAdj_of_chain (b :: t) h.2]

theorem uniqAdj_idem (l : List Vec3) : uniqAdj (uniqAdj l) = uniqAdj l :=
  uniqAdj_of_chain (uniqAdj l) (uniqAdj_chain l)

theorem uniqAdj_sorted : ∀ l : List Vec3,
    l.Sorted vecLe → (uniqAdj l).Sorted vecLe
  | [] => fun _ => by simp [uniqAdj]
  | [a] => fun _ => by simp [uniqAdj]
  | a :: b :: t => by
    intro h
    rw [List.sorted_cons] at h
    rw [uniqAdj]
    split
    · exact uniqAdj_sorted (b :: t) h.2
    · rw [List.sorted_cons]
      refine ⟨fun y hy => h.1 y (uniqAdj_subset (b :: t) y hy),
        uniqAdj_sorted (b :: t) h.2⟩

theorem map_fixed {α : Type} (f : α → α) :
    ∀ l : List α, (∀ x ∈ l, f x = x) → l.map f = l
  | [], _ => rfl
  | a :: t, h => by
    rw [List.map_cons, h a (List.mem_cons_self a t),
      map_fixed f t fun x hx => h x (List.mem_cons_of_mem a hx)]

theorem mem_dedup_rounded {l : List Vec3} {x : Vec3} (hx : x ∈ dedup l) :
    roundPt x = x := by
  have h1 : x ∈ List.insertionSort vecLe (l.map roundPt) :=
    uniqAdj_subset _ x hx
  have h2 : x ∈ l.map roundPt := (List.mem_insertionSort vecLe).mp h1
  obtain ⟨y, _, rfl⟩ := List.mem_map.mp h2
  exact roundPt_idem y

theorem dedup_sorted (l : List Vec3) : (dedup l).Sorted vecLe :=
  uniqAdj_sorted _ (List.sorted_insertionSort vecLe _)

/-- C5.  Deduplication — round each coordinate to 1e-5 absolute precision
and keep one representative per unique rounded tuple, as
`np.unique(points.round(decimals=5), axis=0)` does — is idempotent:
`dedup (dedup S) = dedup S` for every point list `S`. -/
theorem C5_dedup_idempotent (l : List Vec3) : dedup (dedup l) = dedup l := by
  have h1 : (dedup l).map roundPt = dedup l :=
    map_fixed roundPt (dedup l) fun _ hx => mem_dedup_rounded hx
  have h2 : List.insertionSort vecLe (dedup l) = dedup l :=
    (dedup_sorted l).insertionSort_eq
  rw [dedup, h1, h2]
  exact uniqAdj_idem _

theorem dedup_perm {l1 l2 : List Vec3} (h : l1.Perm l2) :
    dedup l1 = dedup l2 := by
  have hs : (List.insertionSort vecLe (l1.map roundPt)).Perm
      (List.insertionSort vecLe (l2.map roundPt)) :=
    (List.perm_insertionSort vecLe _).trans
      ((h.map roundPt).trans (List.perm_insertionSort vecLe _).symm)
  rw [dedup, dedup, List.eq_of_perm_of_sorted hs
    (List.sorted_insertionSort vecLe _) (List.sorted_insertionSort vecLe _)]

/-- C9.  The deduplicated cloud, the ordered centerline and the
wire-diameter statistic depend only on the multiset of candidate points:
candidate lists that are permutations of one another give identical
results, because `np.unique` canonically sorts the rounded points and
everything downstream is a function of that sorted deduplicated list. -/
theorem C9_candidates_perm_invariant (axisFn : List Vec3 → Vec3)
    (l1 l2 : List Vec3) (h : l1.Perm l2) :
    dedup l1 = dedup l2 ∧
    centerlineFromCandidates axisFn l1 = centerlineFromCandidates axisFn l2 := by
  have hd := dedup_perm h
  exact ⟨hd, by unfold centerlineFromCandidates; rw [hd]⟩

/-- Witness for `C9_candidates_perm_invariant` on a concrete two-point
swap. -/
theorem C9_witness :
    dedup [((1 : ℚ), (0 : ℚ), (0 : ℚ)), (0, 0, 0)] =
      dedup [(0, 0, 0), (1, 0, 0)] ∧
    centerlineFromCandidates (fun _ => (1, 0, 0)) [(1, 0, 0), (0, 0, 0)] =
      centerlineFromCandidates (fun _ => (1, 0, 0)) [(0, 0, 0), (1, 0, 0)] :=
  C9_candidates_perm_invariant (fun _ => (1, 0, 0)) _ _
    (List.Perm.swap (0, 0, 0) (1, 0, 0) [])

theorem linspace_length (a b : ℚ) (n : ℕ) : (linspace a b n).length = n := by
  unfold linspace
  split
  · simp_all
  · rw [List.length_map, List.length_range]

/-- C2, amended.  For every ordered point sequence with fewer than 4
points, the spline-smoothing stage fails — the fitting routine rejects
the input through its `m > k` precondition, raising `TypeError` — and
produces no output.  The repository defines no `InsufficientDataError`
class; see `C2_counterexample`. -/
theorem C2_too_few_points_fails (oracle : List Vec3 → ℚ → Option (ℚ → Vec3))
    (points : List Vec3) (e w : ℚ) (h : points.length < 4) :
    fit_bezier_spline oracle points e w = .error .typeError := by
  unfold fit_bezier_spline
  rw [if_pos (by omega)]

/-- Witness for `C2_too_few_points_fails` on a concrete 3-point input. -/
theorem C2_witness :
    fit_bezier_spline oracleConst ptsThree 5 1 = .error .typeError :=
  C2_too_few_points_fails oracleConst ptsThree 5 1 (by decide)

/-- Counterexample to C2 as stated: on a 3-point input the stage fails
with the fitting library's `TypeError`, which is not the spec's
`InsufficientDataError` (no such class exists in the code). -/
theorem C2_counterexample :
    fit_bezier_spline oracleConst ptsThree 5 1 = .error .typeError ∧
    ErrKind.typeError ≠ ErrKind.insufficientDataError :=
  ⟨rfl, by decide⟩

theorem fit_ok_spec (oracle : List Vec3 → ℚ → Option (ℚ → Vec3))
    (points : List Vec3) (e w : ℚ) (res : List Vec3 × ℕ)
    (h : fit_bezier_spline oracle points e w = .ok res) :
    res.1.length = 2 * points.length ∧
    res.2 = (2 * points.length - 1) / 3 ∧
    ∃ f, oracle points ((e * w / 100) ^ 2) = some f ∧
      res.1 = (linspace 0 1 (2 * points.length)).map f := by
  unfold fit_bezier_spline at h
  split at h
  · exact absurd h (by simp)
  · rcases ho : oracle points ((e * w / 100) ^ 2) with _ | f
    · rw [ho] at h
      exact absurd h (by simp)
    · rw [ho] at h
      simp only [Except.ok.injEq] at h
      subst h
      refine ⟨?_, ?_, f, rfl, ?_⟩
      · simp [linspace_length, Nat.mul_comm]
      · simp [Nat.mul_comm]
      · simp [Nat.mul_comm]

/-- C6.  Whenever the spline fit succeeds on `n` ordered points, the
smoothed curve has exactly `2·n` points, obtained by evaluating the
fitted spline at `2·n` evenly spaced parameters over `[0, 1]`, and the
reported curve count is `(2·n - 1) / 3` with truncating integer
division. -/
theorem C6_resample_counts (oracle : List Vec3 → ℚ → Option (ℚ → Vec3))
    (points : List Vec3) (e w : ℚ) (res : List Vec3 × ℕ)
    (h : fit_bezier_spline oracle points e w = .ok res) :
    res.1.length = 2 * points.length ∧
    res.2 = (2 * points.length - 1) / 3 ∧
    ∃ f, oracle points ((e * w / 100) ^ 2) = some f ∧
      res.1 = (linspace 0 1 (2 * points.length)).map f :=
  fit_ok_spec oracle points e w res h

/-- Witness for `C6_resample_counts` on a concrete successful fit of 4
points: 8 output points and curve count `(8 - 1) / 3 = 2`. -/
theorem C6_witness :
    fitResultFour.1.length = 2 * ptsFour.length ∧
    fitResultFour.2 = (2 * ptsFour.length - 1) / 3 ∧
    ∃ f, oracleConst ptsFour ((5 * 1 / 100) ^ 2) = some f ∧
      fitResultFour.1 = (linspace 0 1 (2 * ptsFour.length)).map f :=
  C6_resample_counts oracleConst ptsFour 5 1 fitResultFour rfl

theorem foldl_min_le : ∀ (t : List ℚ) (a x : ℚ), x = a ∨ x ∈ t →
    t.foldl min a ≤ x
  | [], a, x, h => by rcases h with rfl | h
                      · exact le_refl x
                      · simp at h
  | b :: t, a, x, h => by
    rw [List.foldl_cons]
    rcases h with rfl | h
    · exact le_trans (foldl_min_le t (min x b) (min x b) (Or.inl rfl))
        (min_le_left x b)
    · rcases List.mem_cons.mp h with rfl | h2
      · exact le_trans (foldl_min_le t (min a x) (min a x) (Or.inl rfl))
          (min_le_right a x)
      · exact foldl_min_le t (min a b) x (Or.inr h2)

theorem le_foldl_max : ∀ (t : List ℚ) (a x : ℚ), x = a ∨ x ∈ t →
    x ≤ t.foldl max a
  | [], a, x, h => by rcases h with rfl | h
                      · exact le_refl x
                      · simp at h
  | b :: t, a, x, h => by
    rw [List.foldl_cons]
    rcases h with rfl | h
    · exact le_trans (le_max_left x b)
        (le_foldl_max t (max x b) (max x b) (Or.inl rfl))
    · rcases List.mem_cons.mp h with rfl | h2
      · exact le_trans (le_max_right a x)
          (le_foldl_max t (max a x) (max a x) (Or.inl rfl))
      · exact le_foldl_max t (max a b) x (Or.inr h2)

theorem listMinQ_le {l : List ℚ} {x : ℚ} (hx : x ∈ l) : listMinQ l ≤ x := by
  cases l with
  | nil => simp at hx
  | cons a t =>
    rw [listMinQ]
    rcases List.mem_cons.mp hx with rfl | h
    · exact foldl_min_le t x x (Or.inl rfl)
    · exact foldl_min_le t a x (Or.inr h)

theorem le_listMaxQ {l : List ℚ} {x : ℚ} (hx : x ∈ l) : x ≤ listMaxQ l := by
  cases l with
  | nil => simp at hx
  | cons a t =>
    rw [listMaxQ]
    rcases List.mem_cons.mp hx with rfl | h
    · exact le_foldl_max t x x (Or.inl rfl)
    · exact le_foldl_max t a x (Or.inr h)

theorem triples_length {α : Type} : ∀ l : List α,
    (triples l).length = l.length / 3
  | [] => by simp [triples]
  | [_] => by simp [triples]
  | [_, _] => by simp [triples]
  | a :: b :: c :: t => by
    rw [triples, List.length_cons, triples_length t]
    simp only [List.length_cons]
    omega

theorem getD_cons3 {α : Type} (d x y z : α) (l : List α) (m : ℕ) :
    (x :: y :: z :: l).getD (m + 3) d = l.getD m d := by
  have h1 : m + 3 = m + 1 + 1 + 1 := by omega
  rw [h1, List.getD_cons_succ, List.getD_cons_succ, List.getD_cons_succ]

theorem triples_getD {α : Type} (d : α) :
    ∀ (l : List α) (t : ℕ), t < (triples l).length →
      (triples l).getD t (d, d, d) =
        (l.getD (3 * t) d, l.getD (3 * t + 1) d, l.getD (3 * t + 2) d)
  | [], t, h => by simp [triples] at h
  | [_], t, h => by simp [triples] at h
  | [_, _], t, h => by simp [triples] at h
  | a :: b :: c :: r, 0, _ => by simp [triples]
  | a :: b :: c :: r, t + 1, h => by
    rw [triples] at h ⊢
    rw [List.length_cons] at h
    have e1 : 3 * (t + 1) = 3 * t + 3 := by ring
    have e2 : 3 * t + 3 + 1 = 3 * t + 1 + 3 := by ring
    have e3 : 3 * t + 3 + 2 = 3 * t + 2 + 3 := by ring
    rw [List.getD_cons_succ, triples_getD d r t (by omega), e1, e2, e3,
      getD_cons3, getD_cons3, getD_cons3]

theorem mem_of_mem_triples {α : Type} :
    ∀ (l : List α) (tr : α × α × α), tr ∈ triples l →
      tr.1 ∈ l ∧ tr.2.1 ∈ l ∧ tr.2.2 ∈ l
  | [], tr, h => by simp [triples] at h
  | [_], tr, h => by simp [triples] at h
  | [_, _], tr, h => by simp [triples] at h
  | a :: b :: c :: r, tr, h => by
    rw [triples] at h
    rcases List.mem_cons.mp h with rfl | h2
    · exact ⟨List.mem_cons_self _ _,
        List.mem_cons_of_mem _ (List.mem_cons_self _ _),
        List.mem_cons_of_mem _ (List.mem_cons_of_mem _
          (List.mem_cons_self _ _))⟩
    · obtain ⟨ha, hb, hc⟩ := mem_of_mem_triples r tr h2
      exact ⟨List.mem_cons_of_mem _ (List.mem_cons_of_mem _
          (List.mem_cons_of_mem _ ha)),
        List.mem_cons_of_mem _ (List.mem_cons_of_mem _
          (List.mem_cons_of_mem _ hb)),
        List.mem_cons_of_mem _ (List.mem_cons_of_mem _
          (List.mem_cons_of_mem _ hc))⟩

theorem getD_drop_one {α : Type} (l : List α) (k : ℕ) (d : α) :
    (l.drop 1).getD k d = l.getD (k + 1) d := by
  rw [List.getD_eq_getElem?_getD, List.getD_eq_getElem?_getD,
    List.getElem?_drop]
  norm_num [Nat.add_comm]

theorem create_svg_curves_length (cl : List Vec3) (s : ℚ) :
    (create_svg cl s).curves.length = (cl.length - 1) / 3 := by
  show (triples ((scaledPoints cl s).drop 1)).length = _
  rw [triples_length, List.length_drop]
  unfold scaledPoints
  rw [List.length_map]

/-- C7.  For a nonempty smoothed curve of `N` points, the emitted path is
one absolute move-to at the first scaled point followed by exactly
`(N - 1) / 3` cubic curve-to commands; the `t`-th command consumes the
scaled points at positions `3t+1`, `3t+2`, `3t+3`, and the trailing 1-2
leftover points of a non-multiple-of-3 remainder appear in no command. -/
theorem C7_emitted_path (cl : List Vec3) (s : ℚ) (h : cl ≠ []) :
    (∃ p0 rest, scaledPoints cl s = p0 :: rest ∧
      (create_svg cl s).move = p0) ∧
    (create_svg cl s).curves.length = (cl.length - 1) / 3 ∧
    ∀ t, t < (create_svg cl s).curves.length →
      (create_svg cl s).curves.getD t ((0, 0), (0, 0), (0, 0)) =
        ((scaledPoints cl s).getD (3 * t + 1) (0, 0),
         (scaledPoints cl s).getD (3 * t + 2) (0, 0),
         (scaledPoints cl s).getD (3 * t + 3) (0, 0)) := by
  have hsp : scaledPoints cl s ≠ [] := by
    unfold scaledPoints
    simpa using h
  refine ⟨?_, create_svg_curves_length cl s, ?_⟩
  · rcases he : scaledPoints cl s with _ | ⟨p0, rest⟩
    · exact absurd he hsp
    · exact ⟨p0, rest, rfl, by simp [create_svg, he]⟩
  · intro t ht
    show (triples ((scaledPoints cl s).drop 1)).getD t ((0, 0), (0, 0), (0, 0))
      = _
    rw [triples_getD (0, 0) _ t ht, getD_drop_one, getD_drop_one,
      getD_drop_one]

/-- Witness for `C7_emitted_path` on a concrete four-point curve. -/
theorem C7_witness :
    (∃ p0 rest, scaledPoints ptsFour 1 = p0 :: rest ∧
      (create_svg ptsFour 1).move = p0) ∧
    (create_svg ptsFour 1).curves.length = (ptsFour.length - 1) / 3 ∧
    ∀ t, t < (create_svg ptsFour 1).curves.length →
      (create_svg ptsFour 1).curves.getD t ((0, 0), (0, 0), (0, 0)) =
        ((scaledPoints ptsFour 1).getD (3 * t + 1) (0, 0),
         (scaledPoints ptsFour 1).getD (3 * t + 2) (0, 0),
         (scaledPoints ptsFour 1).getD (3 * t + 3) (0, 0)) :=
  C7_emitted_path ptsFour 1 (by simp [ptsFour])

/-- C8.  For a fixed ordered input and wire diameter, raising the error
tolerance never increases the number of emitted cubic curve segments: the
resampled point count is `2·n` for every tolerance, so the emitted
segment count is `(2·n - 1) / 3` for both runs. -/
theorem C8_tolerance_monotone (oracle : List Vec3 → ℚ → Option (ℚ → Vec3))
    (s w e1 e2 : ℚ) (pts : List Vec3) (r1 r2 : List Vec3 × ℕ)
    (h : e1 ≤ e2)
    (h1 : fit_bezier_spline oracle pts e1 w = .ok r1)
    (h2 : fit_bezier_spline oracle pts e2 w = .ok r2) :
    (create_svg r2.1 s).curves.length ≤ (create_svg r1.1 s).curves.length := by
  have ha := (fit_ok_spec oracle pts e1 w r1 h1).1
  have hb := (fit_ok_spec oracle pts e2 w r2 h2).1
  rw [create_svg_curves_length, create_svg_curves_length, ha, hb]

/-- Witness for `C8_tolerance_monotone` with tolerances 1 and 2 on a
concrete successful fit. -/
theorem C8_witness :
    (create_svg fitResultFour.1 1).curves.length ≤
      (create_svg fitResultFour.1 1).curves.length :=
  C8_tolerance_monotone oracleConst 1 1 1 2 ptsFour fitResultFour
    fitResultFour (by norm_num) rfl rfl

theorem mem_scaled_of_mem_path {cl : List Vec3} {s : ℚ} (hne : cl ≠ [])
    {q : ℚ × ℚ} (hq : q ∈ pathPoints (create_svg cl s)) :
    q ∈ scaledPoints cl s := by
  have hsp : scaledPoints cl s ≠ [] := by
    unfold scaledPoints
    simpa using hne
  rcases List.mem_cons.mp hq with rfl | h2
  · show (scaledPoints cl s).headD (0, 0) ∈ scaledPoints cl s
    rcases he : scaledPoints cl s with _ | ⟨p0, rest⟩
    · exact absurd he hsp
    · simp
  · obtain ⟨tr, htr, hqtr⟩ := List.mem_flatMap.mp h2
    have hcomp := mem_of_mem_triples _ tr htr
    have hsub := List.drop_subset 1 (scaledPoints cl s)
    rcases List.mem_cons.mp hqtr with rfl | hq2
    · exact hsub hcomp.1
    · rcases List.mem_cons.mp hq2 with rfl | hq3
      · exact hsub hcomp.2.1
      · rcases List.mem_cons.mp hq3 with rfl | hq4
        · exact hsub hcomp.2.2
        · simp at hq4

theorem svg_sizes_nonneg {cl : List Vec3} {s : ℚ} (hne : cl ≠ [])
    (hs : 0 < s) :
    0 ≤ svgWidth cl s ∧ 0 ≤ svgHeight cl s ∧ 0 ≤ svgPadding cl s := by
  rcases he : cl with _ | ⟨p, rest⟩
  · exact absurd he hne
  have hx1 : listMinQ ((p :: rest).map fun q => q.1) ≤ p.1 :=
    listMinQ_le (List.mem_map_of_mem _ (List.mem_cons_self _ _))
  have hx2 : p.1 ≤ listMaxQ ((p :: rest).map fun q => q.1) :=
    le_listMaxQ (List.mem_map_of_mem _ (List.mem_cons_self _ _))
  have hy1 : listMinQ ((p :: rest).map fun q => q.2.1) ≤ p.2.1 :=
    listMinQ_le (List.mem_map_of_mem _ (List.mem_cons_self _ _))
  have hy2 : p.2.1 ≤ listMaxQ ((p :: rest).map fun q => q.2.1) :=
    le_listMaxQ (List.mem_map_of_mem _ (List.mem_cons_self _ _))
  have hw : 0 ≤ svgWidth (p :: rest) s := by
    unfold svgWidth
    nlinarith
  have hh : 0 ≤ svgHeight (p :: rest) s := by
    unfold svgHeight
    nlinarith
  refine ⟨hw, hh, ?_⟩
  unfold svgPadding
  nlinarith [le_max_left (svgWidth (p :: rest) s) (svgHeight (p :: rest) s)]

theorem scaledPoints_bounds {cl : List Vec3} {s : ℚ} (hs : 0 < s)
    {q : ℚ × ℚ} (hq : q ∈ scaledPoints cl s) :
    svgPadding cl s ≤ q.1 ∧ q.1 ≤ svgWidth cl s + svgPadding cl s ∧
    svgPadding cl s ≤ q.2 ∧ q.2 ≤ svgHeight cl s + svgPadding cl s := by
  obtain ⟨p, hp, rfl⟩ := List.mem_map.mp hq
  have hx1 : listMinQ (cl.map fun q => q.1) ≤ p.1 :=
    listMinQ_le (List.mem_map_of_mem _ hp)
  have hx2 : p.1 ≤ listMaxQ (cl.map fun q => q.1) :=
    le_listMaxQ (List.mem_map_of_mem _ hp)
  have hy1 : listMinQ (cl.map fun q => q.2.1) ≤ p.2.1 :=
    listMinQ_le (List.mem_map_of_mem _ hp)
  have hy2 : p.2.1 ≤ listMaxQ (cl.map fun q => q.2.1) :=
    le_listMaxQ (List.mem_map_of_mem _ hp)
  have hwdef : svgWidth cl s =
      (listMaxQ (cl.map fun q => q.1) - listMinQ (cl.map fun q => q.1)) * s :=
    rfl
  have hhdef : svgHeight cl s =
      (listMaxQ (cl.map fun q => q.2.1) -
        listMinQ (cl.map fun q => q.2.1)) * s := rfl
  refine ⟨?_, ?_, ?_, ?_⟩ <;> simp only <;> nlinarith

/-- C10.  With a positive scale and a nonempty curve, every 2D coordinate
the emitted path mentions lies in
`[padding, width + padding] × [padding, height + padding]`, hence inside
the declared document box
`[0, width + 2·padding] × [0, height + 2·padding]`. -/
theorem C10_coordinates_in_document_box (cl : List Vec3) (s : ℚ)
    (hne : cl ≠ []) (hs : 0 < s) :
    ∀ q ∈ pathPoints (create_svg cl s),
      (svgPadding cl s ≤ q.1 ∧ q.1 ≤ svgWidth cl s + svgPadding cl s ∧
       svgPadding cl s ≤ q.2 ∧ q.2 ≤ svgHeight cl s + svgPadding cl s) ∧
      (0 ≤ q.1 ∧ q.1 ≤ svgWidth cl s + 2 * svgPadding cl s ∧
       0 ≤ q.2 ∧ q.2 ≤ svgHeight cl s + 2 * svgPadding cl s) := by
  intro q hq
  have hb := scaledPoints_bounds hs (mem_scaled_of_mem_path hne hq)
  have hnn := svg_sizes_nonneg hne hs
  refine ⟨hb, ?_, ?_, ?_, ?_⟩
  · linarith [hb.1, hnn.2.2]
  · linarith [hb.2.1, hnn.2.2]
  · linarith [hb.2.2.1, hnn.2.2]
  · linarith [hb.2.2.2, hnn.2.2]

/-- Witness for `C10_coordinates_in_document_box`: the move-to point of a
concrete emitted path lies in the declared box. -/
theorem C10_witness :
    (svgPadding ptsFour 2 ≤ (create_svg ptsFour 2).move.1 ∧
     (create_svg ptsFour 2).move.1 ≤ svgWidth ptsFour 2 + svgPadding ptsFour 2 ∧
     svgPadding ptsFour 2 ≤ (create_svg ptsFour 2).move.2 ∧
     (create_svg ptsFour 2).move.2 ≤
       svgHeight ptsFour 2 + svgPadding ptsFour 2) ∧
    (0 ≤ (create_svg ptsFour 2).move.1 ∧
     (create_svg ptsFour 2).move.1 ≤
       svgWidth ptsFour 2 + 2 * svgPadding ptsFour 2 ∧
     0 ≤ (create_svg ptsFour 2).move.2 ∧
     (create_svg ptsFour 2).move.2 ≤
       svgHeight ptsFour 2 + 2 * svgPadding ptsFour 2) :=
  C10_coordinates_in_document_box ptsFour 2 (by simp [ptsFour]) (by norm_num)
    ((create_svg ptsFour 2).move) (List.mem_cons_self _ _)

/-- C4, amended.  For every call of `extract_centerline` with
`sample_size ≤ 0`, the call fails with a `ValueError` — a negative size
is rejected by `np.random.choice`, and size 0 yields an empty sampled
set whose zero chunk step is rejected by `range` — and no centerline is
produced.  No `ConfigurationError` validation exists: for
`sample_size = 0` the sampling step itself succeeds with an empty facet
set, see `C4_counterexample`. -/
theorem C4_nonpositive_sample_size_fails (pick : ℕ → ℕ → List ℕ)
    (numProcs : ℕ) (axisFn : List Vec3 → Vec3) (cents norms : List Vec3)
    (maxd : ℚ) (k : ℤ) (hpick : ∀ n m, (pick n m).length = m)
    (hk : k ≤ 0) :
    extract_centerline pick numProcs axisFn cents norms maxd k =
      .error .valueError := by
  unfold extract_centerline sampleFacets
  by_cases hgt : (cents.length : ℤ) > k
  · rw [if_pos hgt]
    by_cases hneg : k < 0
    · rw [if_pos hneg]
      rfl
    · rw [if_neg hneg]
      have hk0 : k = 0 := le_antisymm hk (not_lt.mp hneg)
      subst hk0
      have hnil : pick cents.length (0 : ℤ).toNat = [] :=
        List.eq_nil_of_length_eq_zero (by rw [hpick]; rfl)
      rw [hnil]
      simp [Except.bind]
  · rw [if_neg hgt]
    have hlen : cents.length = 0 := by omega
    simp [Except.bind, hlen]

/-- Witness for `C4_nonpositive_sample_size_fails` on a concrete
two-facet mesh with `sample_size = 0`. -/
theorem C4_witness :
    extract_centerline pickRange 4 axisX [(0, 0, 0), (1, 0, 0)]
      [(1, 0, 0), (0, 1, 0)] 1 0 = .error .valueError :=
  C4_nonpositive_sample_size_fails pickRange 4 axisX _ _ 1 0
    (fun _ m => List.length_range m) (by decide)

/-- Counterexample to C4 as stated: with `sample_size = 0` on a two-facet
mesh, the sampling stage succeeds and produces an (empty) sampled facet
set rather than failing; the later failure is a `ValueError` from the
zero chunk step, which is not the spec's `ConfigurationError` (no such
class exists in the code). -/
theorem C4_counterexample :
    sampleFacets pickRange [(0, 0, 0), (1, 0, 0)] [(1, 0, 0), (0, 1, 0)] 0 =
      .ok ([], []) ∧
    extract_centerline pickRange 4 axisX [(0, 0, 0), (1, 0, 0)]
      [(1, 0, 0), (0, 1, 0)] 1 0 = .error .valueError ∧
    ErrKind.valueError ≠ ErrKind.configurationError :=
  ⟨rfl, rfl, by decide⟩

end BendPrep
